import Mathlib

/-!
Verification development for the markdown decomposition / rendering engine.

The C++ sources are shallowly embedded: pure string routines are translated
function by function (from src/markdown_utils.cpp and
src/duck_block_functions.cpp); the external CommonMark parser (cmark-gfm),
which is out of scope of the specification, is modelled by an explicit tree
of typed block nodes together with a modelled re-serialization function.
Machine integers (int32_t counters, levels) are modelled as Int; the
std::unordered_map dedup counter is modelled as an association list.
-/

namespace MD

/-! ### Basic string helpers (byte strings are modelled as ASCII char lists) -/

/-- Drop trailing newline and carriage-return characters, as done by the
repeated pop_back loops in the C++ sources. -/
def trimTrailingNL (s : String) : String :=
  ⟨(s.data.reverse.dropWhile (fun c => c = '\n' || c = '\r')).reverse⟩

/-- Drop trailing newline characters only (the code-block and html trims). -/
def trimTrailingLF (s : String) : String :=
  ⟨(s.data.reverse.dropWhile (fun c => c = '\n')).reverse⟩

/-- Model of reading a string line by line with std::getline. -/
def getlines (s : String) : List String :=
  if s = "" then []
  else
    let parts := s.splitOn "\n"
    if s.data.getLast? = some '\n' then parts.dropLast else parts

/-- Check that the second list is a leading segment of the first. -/
def listStartsWith : List Char → List Char → Bool
  | _, [] => true
  | [], _ :: _ => false
  | c :: cs, p :: ps => c = p && listStartsWith cs ps

/-- Index of the first occurrence of a pattern in a char list. -/
def findSubIdx : List Char → List Char → Option Nat
  | [], pat => if pat.isEmpty then some 0 else none
  | c :: rest, pat =>
    if listStartsWith (c :: rest) pat then some 0
    else (findSubIdx rest pat).map (· + 1)

/-- Model of std::string::find(pat, from): absolute index of the first
occurrence of pat at or after position i, or none (npos). -/
def findSubFrom (cs : List Char) (pat : List Char) (i : Nat) : Option Nat :=
  (findSubIdx (cs.drop i) pat).map (· + i)

/-- Model of std::string::find(ch, from) for a single character. -/
def findCharFrom (cs : List Char) (ch : Char) (i : Nat) : Option Nat :=
  findSubFrom cs [ch] i

/-- Substring containment test. -/
def containsSub (s : String) (pat : String) : Bool :=
  (findSubFrom s.data pat.data 0).isSome

/-- Model of std::string::substr(start, len) on char lists. -/
def slice (cs : List Char) (start len : Nat) : List Char :=
  (cs.drop start).take len

/-! ### Dedup counter (std::unordered_map<std::string, int32_t>) -/

/-- Lookup with the map default of zero. -/
def getCount : List (String × Nat) → String → Nat
  | [], _ => 0
  | p :: m, k => if p.1 = k then p.2 else getCount m k

/-- Model of m[k]++ on the dedup map: increment in place, or append a fresh
entry with count one. -/
def bumpCount : List (String × Nat) → String → List (String × Nat)
  | [], k => [(k, 1)]
  | p :: m, k => if p.1 = k then (p.1, p.2 + 1) :: m else p :: bumpCount m k

/-! ### GenerateSectionId (markdown_utils.cpp lines 209-233) -/

/-- ASCII lower-casing as done by std::tolower on the slug characters. -/
def asciiLower (c : Char) : Char :=
  if 'A' ≤ c && c ≤ 'Z' then Char.ofNat (c.toNat + 32) else c

/-- Replacement for the regex [^a-z0-9\-_] -> "-". -/
def slugReplace (c : Char) : Char :=
  if ('a' ≤ c && c ≤ 'z') || ('0' ≤ c && c ≤ '9') || c = '-' || c = '_' then c
  else '-'

/-- Collapse runs of hyphens to a single hyphen (regex -+ -> -). -/
def collapseHyphens : List Char → List Char
  | [] => []
  | '-' :: rest =>
    match collapseHyphens rest with
    | '-' :: tail => '-' :: tail
    | tail => '-' :: tail
  | c :: rest => c :: collapseHyphens rest

/-- Trim leading and trailing hyphens (regex ^-+|-+$ -> empty). -/
def trimHyphens (cs : List Char) : List Char :=
  ((cs.dropWhile (· = '-')).reverse.dropWhile (· = '-')).reverse

/-- The pure slug part of GenerateSectionId: lowercase, replace characters
outside [a-z0-9-_] by hyphens, collapse hyphen runs, trim hyphens. -/
def slugify (s : String) : String :=
  ⟨trimHyphens (collapseHyphens (s.data.map (fun c => slugReplace (asciiLower c))))⟩

/-- GenerateSectionId from markdown_utils.cpp: slugify the heading text, then,
if the dedup map holds a positive count for the slug, append a hyphen and
that count. The map itself is not modified. -/
def GenerateSectionId (headingText : String) (idCounts : List (String × Nat)) : String :=
  let id := slugify headingText
  if getCount idCounts id > 0 then id ++ "-" ++ toString (getCount idCounts id)
  else id

/-! ### std::stoi model -/

def isCppSpace (c : Char) : Bool :=
  c = ' ' || c = '\t' || c = '\n' || c = '\x0b' || c = '\x0c' || c = '\r'

def digitsPrefixVal : List Char → Option Int
  | [] => none
  | c :: rest =>
    if '0' ≤ c && c ≤ '9' then
      some (digitsVal rest (Int.ofNat (c.toNat - '0'.toNat)))
    else none
where
  digitsVal : List Char → Int → Int
    | [], acc => acc
    | c :: rest, acc =>
      if '0' ≤ c && c ≤ '9' then digitsVal rest (acc * 10 + Int.ofNat (c.toNat - '0'.toNat))
      else acc

/-- Model of std::stoi: skip whitespace, optional sign, parse a digit prefix;
none models both the invalid_argument and the out_of_range exception. -/
def stoiOpt (s : String) : Option Int :=
  let cs := s.data.dropWhile isCppSpace
  let (neg, cs) :=
    match cs with
    | '-' :: rest => (true, rest)
    | '+' :: rest => (false, rest)
    | _ => (false, cs)
  match digitsPrefixVal cs with
  | none => none
  | some v =>
    let v := if neg then -v else v
    if v < -2147483648 || 2147483647 < v then none else some v

/-! ### GetAttribute and the list micro-parser (duck_block_functions.cpp) -/

/-- Attribute maps are modelled as association lists of strings; a missing
key yields the empty string, as in GetAttribute. -/
def GetAttribute (attributes : List (String × String)) (key : String) : String :=
  match attributes.find? (fun p => p.1 = key) with
  | some p => p.2
  | none => ""

/-- Scanner loop of ParseJsonListItems: single pass with in_string and
escape_next flags, translating the escapes n, t, r and copying any other
escaped character. -/
def pjliGo : List Char → Bool → Bool → List Char → List String
  | [], _, _, _ => []
  | c :: rest, inString, escapeNext, current =>
    if escapeNext then
      let current :=
        if c = 'n' then current ++ ['\n']
        else if c = 't' then current ++ ['\t']
        else if c = 'r' then current ++ ['\r']
        else current ++ [c]
      pjliGo rest inString false current
    else if c = '\\' then pjliGo rest inString true current
    else if c = '"' then
      if inString then (⟨current⟩ : String) :: pjliGo rest false false []
      else pjliGo rest true false current
    else if inString then pjliGo rest inString false (current ++ [c])
    else pjliGo rest inString false current

/-- ParseJsonListItems from duck_block_functions.cpp lines 29-66: reject
content shorter than two characters or not starting with a bracket, strip the
first and last character, then scan for quoted strings. -/
def ParseJsonListItems (content : String) : List String :=
  if content.length < 2 || content.data.head? ≠ some '[' then []
  else pjliGo ((content.data.drop 1).dropLast) false false []

/-! ### ParseJsonTable (duck_block_functions.cpp lines 68-140) -/

/-- Quoted-string scanner used by the header and row loops of ParseJsonTable:
escaped characters are copied verbatim (no escape translation there). -/
def rawQuotedStrings : List Char → Bool → Bool → List Char → List String
  | [], _, _, _ => []
  | c :: rest, inString, escapeNext, current =>
    if escapeNext then rawQuotedStrings rest inString false (current ++ [c])
    else if c = '\\' then rawQuotedStrings rest inString true current
    else if c = '"' then
      if inString then (⟨current⟩ : String) :: rawQuotedStrings rest false false []
      else rawQuotedStrings rest true false current
    else if inString then rawQuotedStrings rest inString false (current ++ [c])
    else rawQuotedStrings rest inString false current

/-- Row loop of ParseJsonTable: repeatedly take the bracketed span between the
next opening and closing bracket and scan it for quoted cells. -/
def pjRowsGo : Nat → List Char → Nat → List (List String)
  | 0, _, _ => []
  | fuel + 1, cs, pos =>
    if pos < cs.length then
      match findCharFrom cs '[' pos with
      | none => []
      | some rowStart =>
        match findCharFrom cs ']' rowStart with
        | none => []
        | some rowEnd =>
          let row := rawQuotedStrings (slice cs (rowStart + 1) (rowEnd - rowStart - 1)) false false []
          let rest := pjRowsGo fuel cs (rowEnd + 1)
          if row ≠ [] then row :: rest else rest
    else []

/-- ParseJsonTable from duck_block_functions.cpp: extract the flat headers
array after the headers key and the nested row arrays after the rows key. -/
def ParseJsonTable (content : String) : List String × List (List String) :=
  let cs := content.data
  let headers :=
    match findSubFrom cs ("\"headers\":").data 0 with
    | none => []
    | some hs =>
      match findCharFrom cs '[' hs with
      | none => []
      | some arrStart =>
        match findCharFrom cs ']' arrStart with
        | none => []
        | some arrEnd =>
          rawQuotedStrings (slice cs (arrStart + 1) (arrEnd - arrStart - 1)) false false []
  let rows :=
    match findSubFrom cs ("\"rows\":").data 0 with
    | none => []
    | some rs =>
      match findCharFrom cs '[' rs with
      | none => []
      | some outerStart => pjRowsGo (cs.length + 2) cs (outerStart + 1)
  (headers, rows)

/-- IsPandocTableFormat from duck_block_functions.cpp lines 381-387. -/
def IsPandocTableFormat (content : String) : Bool :=
  content.length > 2 &&
  content.data.head? = some '[' &&
  (content.data.drop 1).head? = some '[' &&
  containsSub content ("\"t\":\"Align")

/-! ### ExtractPandocText (duck_block_functions.cpp lines 145-378) -/

/-- Scan for the closing quote of a quoted string, honouring backslash
escapes; returns the absolute index where the scan stopped. -/
def eqFindEnd : List Char → Nat → Bool → Nat
  | [], i, _ => i
  | c :: rest, i, esc =>
    if esc then eqFindEnd rest (i + 1) false
    else if c = '\\' then eqFindEnd rest (i + 1) true
    else if c = '"' then i
    else eqFindEnd rest (i + 1) false

/-- Unescape loop of the extract_quoted_string lambda: translate the escapes
n, t, quote and backslash; keep a lone backslash otherwise. -/
def pandocUnescape : List Char → List Char
  | [] => []
  | '\\' :: c :: rest =>
    if c = 'n' then '\n' :: pandocUnescape rest
    else if c = 't' then '\t' :: pandocUnescape rest
    else if c = '"' then '"' :: pandocUnescape rest
    else if c = '\\' then '\\' :: pandocUnescape rest
    else '\\' :: pandocUnescape (c :: rest)
  | c :: rest => c :: pandocUnescape rest

/-- Model of the extract_quoted_string lambda: starting at an opening quote,
return the unescaped string contents and the position after the closing
quote. -/
def extractQuoted (cs : List Char) (start : Nat) : String × Nat :=
  if cs[start]? = some '"' then
    let e := eqFindEnd (cs.drop (start + 1)) (start + 1) false
    (⟨pandocUnescape (slice cs (start + 1) (e - start - 1))⟩, e + 1)
  else ("", start)

/-- Depth-counting scan of the find_bracket_end lambda, skipping over quoted
string contents. -/
def fbeGo : List Char → Nat → Int → Bool → Bool → Option Nat
  | [], _, _, _, _ => none
  | c :: rest, i, depth, inStr, esc =>
    if esc then fbeGo rest (i + 1) depth inStr false
    else if c = '\\' then fbeGo rest (i + 1) depth inStr true
    else if c = '"' then fbeGo rest (i + 1) depth (!inStr) esc
    else if inStr then fbeGo rest (i + 1) depth inStr esc
    else if c = '[' then fbeGo rest (i + 1) (depth + 1) inStr esc
    else if c = ']' then
      if depth - 1 = 0 then some i else fbeGo rest (i + 1) (depth - 1) inStr esc
    else fbeGo rest (i + 1) depth inStr esc

/-- Model of the find_bracket_end lambda: index of the bracket matching the
opening bracket at start, or none. -/
def findBracketEnd (cs : List Char) (start : Nat) : Option Nat :=
  if cs[start]? = some '[' then fbeGo (cs.drop start) start 0 false false
  else none

def patStr : List Char := ("\"t\":\"Str\"").data
def patSpace : List Char := ("\"t\":\"Space\"").data
def patSoftBreak : List Char := ("\"t\":\"SoftBreak\"").data
def patStrong : List Char := ("\"t\":\"Strong\"").data
def patEmph : List Char := ("\"t\":\"Emph\"").data
def patCode : List Char := ("\"t\":\"Code\"").data
def patLink : List Char := ("\"t\":\"Link\"").data
def patC : List Char := ("\"c\":").data

/-- Keep the match with the smallest position, earlier candidates winning
ties, as in the sequential nearest-match updates of ExtractPandocText. -/
def epBest (cur : Option (Nat × Nat)) (x : Option Nat) (ty : Nat) : Option (Nat × Nat) :=
  match x, cur with
  | some xp, some np => if xp < np.1 then some (xp, ty) else cur
  | some xp, none => some (xp, ty)
  | none, _ => cur

/-- Find the nearest type-marker match at or after pos and its kind tag
(1 Str, 2 Space, 3 SoftBreak, 4 Strong, 5 Emph, 6 Code, 7 Link). -/
def epFind (cs : List Char) (pos : Nat) : Option (Nat × Nat) :=
  let r := epBest none (findSubFrom cs patStr pos) 1
  let r := epBest r (findSubFrom cs patSpace pos) 2
  let r := epBest r (findSubFrom cs patSoftBreak pos) 3
  let r := epBest r (findSubFrom cs patStrong pos) 4
  let r := epBest r (findSubFrom cs patEmph pos) 5
  let r := epBest r (findSubFrom cs patCode pos) 6
  epBest r (findSubFrom cs patLink pos) 7

/-- Main loop of ExtractPandocText, fuelled; recursion both advances the scan
position and descends into bracketed sub-spans. -/
def epGo : Nat → List Char → Nat → String
  | 0, _, _ => ""
  | fuel + 1, cs, pos =>
    match epFind cs pos with
    | none => ""
    | some (np, ty) =>
      if ty = 1 then
        match findSubFrom cs patC np with
        | some cpos =>
          if cpos < np + 50 then
            match findCharFrom cs '"' (cpos + 4) with
            | some qs =>
              let r := extractQuoted cs qs
              r.1 ++ epGo fuel cs r.2
            | none => epGo fuel cs (np + 10)
          else epGo fuel cs (np + 10)
        | none => epGo fuel cs (np + 10)
      else if ty = 2 || ty = 3 then
        " " ++ epGo fuel cs (np + 12)
      else if ty = 4 || ty = 5 then
        match findSubFrom cs patC np with
        | some cpos =>
          match findCharFrom cs '[' cpos with
          | some arrStart =>
            match findBracketEnd cs arrStart with
            | some arrEnd =>
              let inner := slice cs arrStart (arrEnd - arrStart + 1)
              let wrap := if ty = 4 then "**" else "*"
              wrap ++ epGo fuel inner 0 ++ wrap ++ epGo fuel cs (arrEnd + 1)
            | none => epGo fuel cs (np + 10)
          | none => epGo fuel cs (np + 10)
        | none => epGo fuel cs (np + 10)
      else if ty = 6 then
        match findSubFrom cs patC np with
        | some cpos =>
          match findCharFrom cs '[' cpos with
          | some arrStart =>
            match findCharFrom cs '[' (arrStart + 1) with
            | some innerArr =>
              match findBracketEnd cs innerArr with
              | some innerEnd =>
                match findCharFrom cs ',' innerEnd with
                | some comma =>
                  match findCharFrom cs '"' comma with
                  | some quote =>
                    let r := extractQuoted cs quote
                    "`" ++ r.1 ++ "`" ++ epGo fuel cs r.2
                  | none => epGo fuel cs (np + 10)
                | none => epGo fuel cs (np + 10)
              | none => epGo fuel cs (np + 10)
            | none => epGo fuel cs (np + 10)
          | none => epGo fuel cs (np + 10)
        | none => epGo fuel cs (np + 10)
      else
        match findSubFrom cs patC np with
        | some cpos =>
          match findCharFrom cs '[' cpos with
          | some arrStart =>
            match findCharFrom cs '[' (arrStart + 1) with
            | some attrArr =>
              match findBracketEnd cs attrArr with
              | some attrEnd =>
                match findCharFrom cs '[' (attrEnd + 1) with
                | some inlinesArr =>
                  match findBracketEnd cs inlinesArr with
                  | some inlinesEnd =>
                    let inlines := slice cs inlinesArr (inlinesEnd - inlinesArr + 1)
                    let linkText := epGo fuel inlines 0
                    match findCharFrom cs '[' (inlinesEnd + 1) with
                    | some targetArr =>
                      match findCharFrom cs '"' targetArr with
                      | some urlQuote =>
                        let r := extractQuoted cs urlQuote
                        let nxt :=
                          match findBracketEnd cs targetArr with
                          | some targetEnd => targetEnd + 1
                          | none => r.2
                        "[" ++ linkText ++ "](" ++ r.1 ++ ")" ++ epGo fuel cs nxt
                      | none => epGo fuel cs (np + 10)
                    | none => epGo fuel cs (np + 10)
                  | none => epGo fuel cs (np + 10)
                | none => epGo fuel cs (np + 10)
              | none => epGo fuel cs (np + 10)
            | none => epGo fuel cs (np + 10)
          | none => epGo fuel cs (np + 10)
        | none => epGo fuel cs (np + 10)

/-- ExtractPandocText from duck_block_functions.cpp: reconstruct inline
Markdown from a nested tagged-node value representation. -/
def ExtractPandocText (content : String) : String :=
  epGo ((content.data.length + 2) * (content.data.length + 2)) content.data 0

/-! ### ParsePandocTable (duck_block_functions.cpp lines 390-563) -/

/-- Inner while loop skipping a quoted string in ParsePandocTable scans:
starting inside the string, advance to the index of the closing quote (a
backslash consumes two positions). -/
def skipStrGo : Nat → List Char → Nat → Nat
  | 0, _, i => i
  | fuel + 1, cs, i =>
    match cs[i]? with
    | none => i
    | some c =>
      if c = '"' then i
      else if c = '\\' then skipStrGo fuel cs (i + 2)
      else skipStrGo fuel cs (i + 1)

/-- First scan of ParsePandocTable: positions of the fourth and fifth arrays
at depth one inside the outer wrapper array (tableHead and tableBodies). -/
def ppScanGo : Nat → List Char → Nat → Int → Nat → Option Nat → Option Nat × Option Nat
  | 0, _, _, _, _, headStart => (headStart, none)
  | fuel + 1, cs, i, depth, count, headStart =>
    match cs[i]? with
    | none => (headStart, none)
    | some c =>
      if c = '[' then
        let depth := depth + 1
        if depth = 2 then
          let count := count + 1
          if count = 4 then ppScanGo fuel cs (i + 1) depth count (some i)
          else if count = 5 then (headStart, some i)
          else ppScanGo fuel cs (i + 1) depth count headStart
        else ppScanGo fuel cs (i + 1) depth count headStart
      else if c = ']' then ppScanGo fuel cs (i + 1) (depth - 1) count headStart
      else if c = '"' then
        ppScanGo fuel cs (skipStrGo (cs.length + 2) cs (i + 1) + 1) depth count headStart
      else ppScanGo fuel cs (i + 1) depth count headStart

/-- Matching-bracket scan of the cell extraction loops: starting just after
an opening bracket with depth one, return the position one past the matching
closing bracket. -/
def ppMatchEnd : Nat → List Char → Nat → Int → Nat
  | 0, _, i, _ => i
  | fuel + 1, cs, i, depth =>
    if depth ≤ 0 then i
    else
      match cs[i]? with
      | none => i
      | some c =>
        if c = '[' then ppMatchEnd fuel cs (i + 1) (depth + 1)
        else if c = ']' then ppMatchEnd fuel cs (i + 1) (depth - 1)
        else if c = '"' then ppMatchEnd fuel cs (skipStrGo (cs.length + 2) cs (i + 1) + 1) depth
        else ppMatchEnd fuel cs (i + 1) depth

def patPlain : List Char := ("\"t\":\"Plain\"").data
def patPara : List Char := ("\"t\":\"Para\"").data

/-- Nearest Plain or Para block marker at or after pos. -/
def ppNextBlock (cs : List Char) (pos : Nat) : Option Nat :=
  let plain := findSubFrom cs patPlain pos
  let para := findSubFrom cs patPara pos
  match plain, para with
  | some pl, some pa => if pa < pl then some pa else some pl
  | some pl, none => some pl
  | none, some pa => some pa
  | none, none => none

/-- Header-cell loop of ParsePandocTable: collect the extracted text of each
Plain or Para block, keeping only non-empty cells. -/
def ppHeadCells : Nat → List Char → Nat → List String
  | 0, _, _ => []
  | fuel + 1, hs, cellPos =>
    match ppNextBlock hs cellPos with
    | none => []
    | some blockPos =>
      match findSubFrom hs patC blockPos with
      | some cpos =>
        if cpos < blockPos + 30 then
          match findCharFrom hs '[' cpos with
          | some arrStart =>
            let arrEnd := ppMatchEnd (hs.length + 2) hs (arrStart + 1) 1
            let cellText := ExtractPandocText ⟨slice hs arrStart (arrEnd - arrStart)⟩
            let rest := ppHeadCells fuel hs arrEnd
            if cellText ≠ "" then cellText :: rest else rest
          | none => ppHeadCells fuel hs (blockPos + 10)
        else ppHeadCells fuel hs (blockPos + 10)
      | none => ppHeadCells fuel hs (blockPos + 10)

/-- Body-cell loop of ParsePandocTable: collect cells into rows, flushing the
current row whenever the text between consecutive cells holds a row
boundary marker. -/
def ppBodyCells : Nat → List Char → Nat → Nat → List String → List (List String) →
    List (List String)
  | 0, _, _, _, currentRow, rowsAcc =>
    if currentRow ≠ [] then rowsAcc ++ [currentRow] else rowsAcc
  | fuel + 1, bs, cellPos, lastCellEnd, currentRow, rowsAcc =>
    match ppNextBlock bs cellPos with
    | none => if currentRow ≠ [] then rowsAcc ++ [currentRow] else rowsAcc
    | some blockPos =>
      let between := slice bs lastCellEnd (blockPos - lastCellEnd)
      let flush := currentRow ≠ [] && (findSubIdx between ("]],[[").data).isSome
      let rowsAcc := if flush then rowsAcc ++ [currentRow] else rowsAcc
      let currentRow := if flush then [] else currentRow
      match findSubFrom bs patC blockPos with
      | some cpos =>
        if cpos < blockPos + 30 then
          match findCharFrom bs '[' cpos with
          | some arrStart =>
            let arrEnd := ppMatchEnd (bs.length + 2) bs (arrStart + 1) 1
            let cellText := ExtractPandocText ⟨slice bs arrStart (arrEnd - arrStart)⟩
            ppBodyCells fuel bs arrEnd arrEnd (currentRow ++ [cellText]) rowsAcc
          | none => ppBodyCells fuel bs (blockPos + 10) lastCellEnd currentRow rowsAcc
        else ppBodyCells fuel bs (blockPos + 10) lastCellEnd currentRow rowsAcc
      | none => ppBodyCells fuel bs (blockPos + 10) lastCellEnd currentRow rowsAcc

/-- ParsePandocTable from duck_block_functions.cpp: the headers and rows
references are modelled by in and out value pairs; when no headers were
found but rows were, the first row is promoted to the header row. -/
def ParsePandocTable (content : String) (headers0 : List String)
    (rows0 : List (List String)) : List String × List (List String) :=
  let cs := content.data
  let scan := ppScanGo (cs.length + 2) cs 0 0 0 none
  let headers := headers0 ++
    (match scan.1 with
     | none => []
     | some headStart =>
       let headEnd := match scan.2 with | some b => b | none => cs.length
       ppHeadCells (cs.length + 2) (slice cs headStart (headEnd - headStart)) 0)
  let rows := rows0 ++
    (match scan.2 with
     | none => []
     | some bodyStart => ppBodyCells (cs.length + 2) (cs.drop bodyStart) 0 0 [] [])
  if headers = [] && rows ≠ [] then
    (match rows.head? with | some r => r | none => [], rows.tail)
  else (headers, rows)

/-! ### RenderBlockElementToMarkdown (duck_block_functions.cpp lines 671-826) -/

/-- Hash prefix of an ATX heading. -/
def hashes (n : Nat) : String := ⟨List.replicate n '#'⟩

/-- Clamp step of the heading renderer. -/
def clampLevel (k : Int) : Int :=
  if k < 1 then 1 else if k > 6 then 6 else k

/-- Heading level resolution of the renderer: a non-empty heading_level
attribute takes priority (a failed parse falls back to one), otherwise the
raw level field is used only when it already lies in one to six. -/
def resolveHeadingLevel (level : Int) (attributes : List (String × String)) : Int :=
  let attr := GetAttribute attributes "heading_level"
  let hl : Int :=
    if attr ≠ "" then
      match stoiOpt attr with
      | some v => v
      | none => 1
    else if level > 0 && level ≤ 6 then level
    else 1
  clampLevel hl

/-- Ordered-list start resolution: the start attribute is parsed with stoi
when non-empty, an exception leaving the default of one. -/
def resolveListStart (attributes : List (String × String)) : Int :=
  let s := GetAttribute attributes "start"
  if s ≠ "" then
    match stoiOpt s with
    | some v => v
    | none => 1
  else 1

/-- Item loop of the list renderer. -/
def renderListItems : List String → Bool → Int → String
  | [], _, _ => ""
  | item :: rest, ordered, num =>
    (if ordered then toString num ++ ". " ++ item ++ "\n" else "- " ++ item ++ "\n") ++
    renderListItems rest ordered (num + 1)

/-- Pipe-table rendering of the parsed headers and rows. -/
def renderPipeTable (headers : List String) (rows : List (List String)) : String :=
  let colCount := if headers.length = 0 then
      (match rows.head? with | some r => r.length | none => 0)
    else headers.length
  let headerRow :=
    if headers ≠ [] then
      "|" ++ String.join (headers.map (fun h => " " ++ h ++ " |"))
    else
      "|" ++ String.join ((List.replicate colCount " |"))
  let sep := "|" ++ String.join (List.replicate colCount "---|")
  let body := String.join (rows.map (fun row =>
    "|" ++ String.join (row.map (fun cell => " " ++ cell ++ " |")) ++ "\n"))
  headerRow ++ "\n" ++ sep ++ "\n" ++ body ++ "\n"

/-- RenderBlockElementToMarkdown from duck_block_functions.cpp: dispatch on
the element type string and produce canonical Markdown, block forms ending
with a blank-line separator. -/
def RenderBlockElementToMarkdown (element_type content : String) (level : Int)
    (encoding : String) (attributes : List (String × String)) : String :=
  if element_type = "frontmatter" || element_type = "metadata" then
    "---\n" ++ content ++ "\n---\n\n"
  else if element_type = "heading" then
    hashes (resolveHeadingLevel level attributes).toNat ++ " " ++ content ++ "\n\n"
  else if element_type = "paragraph" then
    content ++ "\n\n"
  else if element_type = "code" then
    "```" ++ GetAttribute attributes "language" ++ "\n" ++ content ++ "\n```\n\n"
  else if element_type = "blockquote" then
    String.join ((getlines content).map (fun line => "> " ++ line ++ "\n")) ++ "\n"
  else if element_type = "list" then
    if encoding = "json" && content.length > 2 && content.data.head? = some '[' then
      let ordered := GetAttribute attributes "ordered" = "true"
      let start := resolveListStart attributes
      renderListItems (ParseJsonListItems content) ordered start ++ "\n"
    else content ++ "\n\n"
  else if element_type = "table" then
    let st0 : List String × List (List String) × Bool := ([], [], false)
    let st1 :=
      if encoding = "json" && containsSub content "\"headers\"" then
        let p := ParseJsonTable content
        (p.1, p.2, !p.1.isEmpty)
      else st0
    let st2 :=
      if encoding = "json" && !st1.2.2 && IsPandocTableFormat content then
        let p := ParsePandocTable content st1.1 st1.2.1
        (p.1, p.2, !p.1.isEmpty || !p.2.isEmpty)
      else st1
    if st2.2.2 && (!st2.1.isEmpty || !st2.2.1.isEmpty) then renderPipeTable st2.1 st2.2.1
    else content ++ "\n\n"
  else if element_type = "hr" then
    "---\n\n"
  else if element_type = "list_item" then
    let ordered := GetAttribute attributes "ordered" = "true"
    let itemNum := GetAttribute attributes "item_number"
    if ordered && itemNum ≠ "" then itemNum ++ ". " ++ content ++ "\n"
    else "- " ++ content ++ "\n"
  else if element_type = "image" then
    let src := GetAttribute attributes "src"
    let alt0 := GetAttribute attributes "alt"
    let alt := if alt0 = "" && content ≠ "" then content else alt0
    let title := GetAttribute attributes "title"
    "![" ++ alt ++ "](" ++ src ++
      (if title ≠ "" then " \"" ++ title ++ "\"" else "") ++ ")\n\n"
  else if element_type = "raw" || element_type = "html" || element_type = "md:html_block" then
    content ++ "\n\n"
  else
    content ++ "\n\n"

/-! ### Document tree model

The external CommonMark parser (cmark-gfm) is explicitly out of the scope of
the specification; its output is modelled as a list of typed top-level block
nodes whose inline content has already been flattened to the strings the
tree accessors (literal text, GetInlineText, plaintext and commonmark
re-serialization) would produce. -/

/-- Child node of a list item, as inspected by the item loop of ParseBlocks. -/
inductive ItemChild where
  | paraChild (txt : String)
  | sublist
  | otherChild (txt : String)
deriving Repr, DecidableEq

/-- Top-level block node of the parsed document tree. Headings carry their
plain inline text and source line span. -/
inductive Block where
  | heading (level : Int) (text : String) (startLine endLine : Nat)
  | para (txt : String)
  | codeBlock (info : String) (literal : String)
  | blockQuote (rendered : String)
  | list (ordered : Bool) (start : Int) (items : List (List ItemChild))
  | thematicBreak
  | htmlBlock (literal : String)
  | tableNode (rows : List (List String))
  | other (typeName : String) (rendered : String)
deriving Repr, DecidableEq

/-- Modelled from the spec: the re-serialize-subtree operation of the
external parser (cmark_render_commonmark on a single node), which renders a
node back to canonical Markdown followed by a newline. -/
def renderCommonmark : Block → String
  | .heading l t _ _ => hashes l.toNat ++ " " ++ t ++ "\n"
  | .para t => t ++ "\n"
  | .codeBlock info lit => "```" ++ info ++ "\n" ++ lit ++ "```\n"
  | .blockQuote r => r
  | .list _ _ items =>
    String.join (items.map (fun item =>
      "- " ++ (match item.head? with
               | some (ItemChild.paraChild t) => t
               | some (ItemChild.otherChild t) => t
               | _ => "") ++ "\n"))
  | .thematicBreak => "***\n"
  | .htmlBlock lit => lit
  | .tableNode rows =>
    String.join (rows.map (fun row => "| " ++ String.intercalate " | " row ++ " |\n"))
  | .other _ r => r

/-! ### ParseBlocks (markdown_utils.cpp lines 606-932) -/

/-- Record emitted by ParseBlocks (struct MarkdownBlock). -/
structure MarkdownBlock where
  block_type : String := ""
  content : String := ""
  level : Int := -1
  encoding : String := "text"
  attributes : List (String × String) := []
  block_order : Int := 0
deriving Repr, DecidableEq

/-- JSON escaping of the list-item builder: quote, backslash, newline,
carriage return and tab. -/
def escListChar (c : Char) : List Char :=
  if c = '"' then ['\\', '"']
  else if c = '\\' then ['\\', '\\']
  else if c = '\n' then ['\\', 'n']
  else if c = '\r' then ['\\', 'r']
  else if c = '\t' then ['\\', 't']
  else [c]

/-- JSON escaping of the table-cell builder: quote, backslash and newline
only. -/
def escTableChar (c : Char) : List Char :=
  if c = '"' then ['\\', '"']
  else if c = '\\' then ['\\', '\\']
  else if c = '\n' then ['\\', 'n']
  else [c]

def escListItem (s : String) : String := ⟨(s.data.map escListChar).flatten⟩

def escTableCell (s : String) : String := ⟨(s.data.map escTableChar).flatten⟩

/-- Item-content loop of the list case of ParseBlocks: the first paragraph
child wins; a nested list stops the search; otherwise the first non-empty
inline text wins. -/
def itemFirstText : List ItemChild → String
  | [] => ""
  | ItemChild.paraChild t :: _ => t
  | ItemChild.sublist :: _ => ""
  | ItemChild.otherChild t :: rest => if t ≠ "" then t else itemFirstText rest

/-- JSON array builder of the list case, separating items with a comma and a
space. -/
def listItemsJson : List (List ItemChild) → Bool → String
  | [], _ => ""
  | item :: rest, first =>
    (if first then "" else ", ") ++ "\"" ++ escListItem (itemFirstText item) ++ "\"" ++
      listItemsJson rest false

/-- JSON row builder of the table case. -/
def rowJson (row : List String) : String :=
  "[" ++ String.intercalate ", " (row.map (fun cell => "\"" ++ escTableCell cell ++ "\"")) ++ "]"

/-- JSON object builder of the table case: the first row is always treated
as the header row. -/
def tableJson (rows : List (List String)) : String :=
  let headersJson := match rows.head? with | some r => rowJson r | none => ""
  let rowsJson := String.intercalate ", " (rows.tail.map rowJson)
  "\x7b\"headers\": " ++ headersJson ++ ", \"rows\": [" ++ rowsJson ++ "]\x7d"

/-- Quote-marker stripping of the blockquote case of ParseBlocks. -/
def stripQuoteMarkers (s : String) : String :=
  trimTrailingLF (String.join ((getlines s).map (fun line =>
    (if line.length ≥ 2 && line.data.head? = some '>' && (line.data.drop 1).head? = some ' '
     then ⟨line.data.drop 2⟩
     else if line.length ≥ 1 && line.data.head? = some '>' then ⟨line.data.drop 1⟩
     else line) ++ "\n")))

/-- Per-node conversion of ParseBlocks (the switch over the node type). Note
that the heading case creates a fresh, empty dedup map for every heading. -/
def convertBlock (b : Block) (ord : Int) : MarkdownBlock :=
  match b with
  | .heading l t _ _ =>
    { block_type := "heading", content := t, level := l, encoding := "text",
      attributes := [("id", GenerateSectionId t [])], block_order := ord }
  | .para _ =>
    { block_type := "paragraph", content := trimTrailingNL (renderCommonmark b),
      level := -1, encoding := "text", attributes := [], block_order := ord }
  | .codeBlock info lit =>
    { block_type := "code", content := trimTrailingLF lit, level := -1, encoding := "text",
      attributes :=
        if info ≠ "" then
          match findCharFrom info.data ' ' 0 with
          | some sp => [("language", ⟨info.data.take sp⟩), ("info_string", info)]
          | none => [("language", info)]
        else [],
      block_order := ord }
  | .blockQuote _ =>
    { block_type := "blockquote", content := stripQuoteMarkers (renderCommonmark b),
      level := 1, encoding := "text", attributes := [], block_order := ord }
  | .list ordered start items =>
    { block_type := "list", content := "[" ++ listItemsJson items true ++ "]",
      level := 1, encoding := "json",
      attributes := [("ordered", if ordered then "true" else "false")] ++
        (if ordered then [("start", toString start)] else []),
      block_order := ord }
  | .thematicBreak =>
    { block_type := "hr", content := "", level := -1, encoding := "text",
      attributes := [], block_order := ord }
  | .htmlBlock lit =>
    { block_type := "html", content := trimTrailingLF lit, level := -1, encoding := "text",
      attributes := [], block_order := ord }
  | .tableNode rows =>
    { block_type := "table", content := tableJson rows, level := -1, encoding := "json",
      attributes := [], block_order := ord }
  | .other tyName _ =>
    { block_type := "raw", content := renderCommonmark b, level := -1, encoding := "text",
      attributes := [("original_type", tyName)], block_order := ord }

/-- Loop of ParseBlocks over the top-level children, threading the running
order counter. -/
def parseBlocksGo : List Block → Int → List MarkdownBlock
  | [], _ => []
  | b :: rest, ord => convertBlock b ord :: parseBlocksGo rest (ord + 1)

/-- ParseBlocks from markdown_utils.cpp: the raw input string is modelled by
the already extracted frontmatter text (empty when absent) together with the
parsed top-level nodes of the stripped body. -/
def ParseBlocks (frontmatter : String) (body : List Block) : List MarkdownBlock :=
  if frontmatter = "" then parseBlocksGo body 1
  else
    { block_type := "frontmatter", content := frontmatter, level := 0,
      encoding := "yaml", attributes := [], block_order := 1 } :: parseBlocksGo body 2

/-! ### ExtractSections (markdown_utils.cpp lines 324-563) -/

/-- Record emitted by ExtractSections (struct MarkdownSection as used by the
implementation). -/
structure MarkdownSection where
  id : String := ""
  section_path : String := ""
  level : Int := 0
  title : String := ""
  content : String := ""
  parent_id : String := ""
  start_line : Nat := 0
  end_line : Nat := 0
deriving Repr, DecidableEq

/-- Heading collected by the first pass of ExtractSections. -/
structure HeadInfo where
  docIdx : Nat
  level : Int
  text : String
  startLine : Nat
  endLine : Nat
deriving Repr, DecidableEq

/-- First pass of ExtractSections: collect every heading node in document
order, with its position among the top-level children. -/
def collectHeadings (body : List Block) : List HeadInfo :=
  body.enum.filterMap (fun p =>
    match p.2 with
    | .heading l t s e => some ⟨p.1, l, t, s, e⟩
    | _ => none)

/-- Title of a heading: plaintext rendering with trailing newlines removed. -/
def headTitle (h : HeadInfo) : String := trimTrailingNL (h.text ++ "\n")

/-- Lines 429-431 of markdown_utils.cpp: generate the base id from the dedup
map, increment the count of the base id, and append a numeric suffix when
the incremented count exceeds one. -/
def assignSectionId (title : String) (counts : List (String × Nat)) :
    String × List (String × Nat) :=
  let baseId := GenerateSectionId title counts
  let counts2 := bumpCount counts baseId
  let n := getCount counts2 baseId
  (if n > 1 then baseId ++ "-" ++ toString (n - 1) else baseId, counts2)

/-- Backwards parent scan of lines 436-442: the last previously emitted
section with a strictly smaller level. -/
def lastWithSmallerLevel : List MarkdownSection → Int → Option MarkdownSection
  | [], _ => none
  | s :: rest, lvl =>
    match lastWithSmallerLevel rest lvl with
    | some p => some p
    | none => if s.level < lvl then some s else none

/-- Stop-boundary scan of lines 450-466 over the headings after the current
one: minimal mode stops at the very next heading, full and smart modes at
the next heading of smaller or equal level. -/
def findStop (mode : String) (lvl : Int) : List HeadInfo → Option HeadInfo
  | [] => none
  | h :: hs =>
    if mode = "minimal" then some h
    else if h.level ≤ lvl then some h
    else findStop mode lvl hs

/-- Sibling walk of lines 478-512: concatenate the re-serialized nodes after
the heading, breaking at headings per mode, and remember the text
accumulated before the first nested subsection (smart mode). Returns the
concatenated content and the immediate content. -/
def walkContent (mode : String) (lvl : Int) (stopIdx : Option Nat) :
    List (Nat × Block) → String → String → Bool → String × String
  | [], acc, imm, _ => (acc, imm)
  | (idx, b) :: rest, acc, imm, found =>
    match b with
    | .heading hl _ _ _ =>
      if mode = "minimal" then (acc, imm)
      else if hl ≤ lvl then (acc, imm)
      else
        let imm2 := if mode = "smart" && !found then acc else imm
        let found2 := if mode = "smart" && !found then true else found
        if stopIdx = some idx then (acc, imm2)
        else walkContent mode lvl stopIdx rest (acc ++ renderCommonmark b) imm2 found2
    | _ =>
      if stopIdx = some idx then (acc, imm)
      else walkContent mode lvl stopIdx rest (acc ++ renderCommonmark b) imm found

/-- Last occurrence of a character (std::string::rfind). -/
def rfindChar (cs : List Char) (ch : Char) : Option Nat :=
  cs.enum.foldl (fun acc p => if p.2 = ch then some p.1 else acc) none

/-- Truncation path of smart mode (lines 522-529): take the first maxLen
characters and backtrack to the last line boundary when it lies past the
midpoint. -/
def truncatePrefix (contentText : String) (maxLen : Nat) : String :=
  match rfindChar (contentText.data.take maxLen) '\n' with
  | some p =>
    if p > maxLen / 2 then ⟨(contentText.data.take maxLen).take p⟩
    else ⟨contentText.data.take maxLen⟩
  | none => ⟨contentText.data.take maxLen⟩

/-- Subsection-reference loop of lines 532-551: one reference line per
direct child subsection, its id computed from the dedup map without
incrementing it. -/
def subsectionRefs (lvl : Int) (counts : List (String × Nat)) : List HeadInfo → String
  | [] => ""
  | h :: hs =>
    if h.level ≤ lvl then ""
    else if h.level = lvl + 1 then
      "\n... (see #" ++ GenerateSectionId (headTitle h) counts ++ ")\n" ++
        subsectionRefs lvl counts hs
    else subsectionRefs lvl counts hs

/-- Second pass of ExtractSections: process the collected headings in order,
skipping those outside the level window, threading the emitted sections and
the dedup map. -/
def esGo (body : List Block) (minL maxL : Int) (includeContent : Bool) (mode : String)
    (effMax : Nat) :
    List HeadInfo → List MarkdownSection → List (String × Nat) → List MarkdownSection
  | [], acc, _ => acc
  | h :: rest, acc, counts =>
    if h.level < minL || h.level > maxL then
      esGo body minL maxL includeContent mode effMax rest acc counts
    else
      let title := headTitle h
      let assigned := assignSectionId title counts
      let theId := assigned.1
      let counts2 := assigned.2
      let parent := lastWithSmallerLevel acc h.level
      let parentId := match parent with | some p => p.id | none => ""
      let path := match parent with
        | some p => p.section_path ++ "/" ++ theId
        | none => theId
      let stop := findStop mode h.level rest
      let stopLine : Nat := match stop with | some sh => sh.startLine - 1 | none => 0
      let endLine := if includeContent && stopLine > 0 then stopLine else h.endLine
      let content :=
        if includeContent then
          let wc := walkContent mode h.level (stop.map (·.docIdx))
            (body.enum.drop (h.docIdx + 1)) "" "" false
          if mode = "smart" && wc.1.length > effMax then
            (if wc.2 ≠ "" then wc.2 else truncatePrefix wc.1 effMax) ++
              subsectionRefs h.level counts2 rest
          else wc.1
        else ""
      let sec : MarkdownSection :=
        { id := theId, section_path := path, level := h.level, title := title,
          content := content, parent_id := parentId, start_line := h.startLine,
          end_line := endLine }
      esGo body minL maxL includeContent mode effMax rest (acc ++ [sec]) counts2

/-- ExtractSections from markdown_utils.cpp: the raw input string is
modelled by the parsed top-level nodes of the frontmatter-stripped body. -/
def ExtractSections (body : List Block) (minL maxL : Int) (includeContent : Bool)
    (mode : String) (maxContentLength : Nat) : List MarkdownSection :=
  let effMax := if maxContentLength > 0 then maxContentLength else 2000
  esGo body minL maxL includeContent mode effMax (collectHeadings body) [] []

/-! ### Concrete documents used by the claims

Each document is the modelled output of the external CommonMark parser on
the Markdown input named in the comment. -/

/-- Tree of the input consisting of the two bullet lines a and b: one
unordered list with two items, each holding one paragraph. -/
def bodyC1 : List Block := [.list false 0 [[.paraChild "a"], [.paraChild "b"]]]

/-- Tree of three consecutive level-one headings titled Intro. -/
def bodyC2 : List Block :=
  [.heading 1 "Intro" 1 1, .heading 1 "Intro" 3 3, .heading 1 "Intro" 5 5]

/-- Tree of four consecutive level-one headings titled Intro. -/
def bodyC2b : List Block :=
  [.heading 1 "Intro" 1 1, .heading 1 "Intro" 3 3, .heading 1 "Intro" 5 5,
   .heading 1 "Intro" 7 7]

/-- Tree of two consecutive level-one headings titled Intro. -/
def bodyC5 : List Block := [.heading 1 "Intro" 1 1, .heading 1 "Intro" 3 3]

/-- Tree of the content-mode boundary document: heading A, paragraph text1,
subsection heading B, paragraph text2, heading C, paragraph text3. -/
def bodyC3 : List Block :=
  [.heading 1 "A" 1 1, .para "text1", .heading 2 "B" 5 5,
   .para "text2", .heading 1 "C" 9 9, .para "text3"]

/-- Tree with a long immediate content (three twenty-character paragraphs)
before a single direct subsection B. -/
def bodyC4 : List Block :=
  [.heading 1 "A" 1 1, .para "aaaaaaaaaaaaaaaaaaaa", .para "bbbbbbbbbbbbbbbbbbbb",
   .para "cccccccccccccccccccc", .heading 2 "B" 9 9, .para "x"]

/-- Tree whose section A has empty immediate content (its first node is
already the subsection heading) followed by a long paragraph. -/
def bodyC4b : List Block :=
  [.heading 1 "A" 1 1, .heading 2 "B" 3 3, .para "cccccccccccccccccccccccccccccc"]

/-- Tree with two direct child subsections of A that share the title X. -/
def bodyC8 : List Block :=
  [.heading 1 "A" 1 1, .para "cccccccccccccccccccc", .heading 2 "X" 5 5,
   .para "a", .heading 2 "X" 9 9, .para "b"]

/-! ### Spec-side predicates -/

/-- Split a char list at newline characters. -/
def splitLines : List Char → List (List Char)
  | [] => [[]]
  | '\n' :: rest => [] :: splitLines rest
  | c :: rest =>
    match splitLines rest with
    | l :: ls => (c :: l) :: ls
    | [] => [[c]]

/-- Length of the longest line of a string. -/
def maxLineLen (s : String) : Nat :=
  ((splitLines s.data).map List.length).foldr max 0

/-- Hierarchy property claimed for the section si emitted at position i of a
section sequence: a non-empty parent id names an earlier section of strictly
smaller level that is the nearest such predecessor and determines the path,
and a section preceded by no smaller-level section is a root whose parent id
is empty and whose path is its own id. -/
def HierarchyAt (S : List MarkdownSection) (i : Nat) (si : MarkdownSection) : Prop :=
  (si.parent_id ≠ "" →
    ∃ j, ∃ sj : MarkdownSection, j < i ∧ S[j]? = some sj ∧
      sj.id = si.parent_id ∧ sj.level < si.level ∧
      (∀ k, ∀ sk : MarkdownSection, j < k → k < i → S[k]? = some sk →
        ¬ sk.level < si.level) ∧
      si.section_path = sj.section_path ++ "/" ++ si.id) ∧
  ((∀ j, ∀ sj : MarkdownSection, j < i → S[j]? = some sj → ¬ sj.level < si.level) →
    si.parent_id = "" ∧ si.section_path = si.id)

/-! ### Shared lemmas -/

theorem getCount_bump (m : List (String × Nat)) (k : String) :
    getCount (bumpCount m k) k = getCount m k + 1 := by
  induction m with
  | nil => simp [bumpCount, getCount]
  | cons p m ih =>
    by_cases h : p.1 = k
    · simp [bumpCount, getCount, h]
    · simp [bumpCount, getCount, h, ih]

theorem truncatePrefix_length_le (s : String) (n : Nat) :
    (truncatePrefix s n).length ≤ n := by
  unfold truncatePrefix
  cases h : rfindChar (s.data.take n) '\n' with
  | none =>
    show (s.data.take n).length ≤ n
    exact List.length_take_le n s.data
  | some p =>
    by_cases hp : p > n / 2
    · simp only [hp, if_true]
      show ((s.data.take n).take p).length ≤ n
      simp only [List.length_take]
      omega
    · simp only [hp, if_false]
      show (s.data.take n).length ≤ n
      exact List.length_take_le n s.data

theorem findStop_minimal (lvl : Int) (hs : List HeadInfo) :
    findStop "minimal" lvl hs = hs.head? := by
  cases hs <;> simp [findStop]

theorem findStop_le (mode : String) (hmode : mode ≠ "minimal") (lvl : Int)
    (hs : List HeadInfo) :
    findStop mode lvl hs = hs.find? (fun h => decide (h.level ≤ lvl)) := by
  induction hs with
  | nil => rfl
  | cons h t ih =>
    rw [findStop.eq_def]
    simp only [List.find?_cons]
    rw [if_neg hmode]
    by_cases hl : h.level ≤ lvl
    · simp [hl]
    · simp [hl, ih]

theorem convertBlock_order (b : Block) (n : Int) : (convertBlock b n).block_order = n := by
  cases b <;> rfl

theorem parseBlocksGo_length (body : List Block) (n : Int) :
    (parseBlocksGo body n).length = body.length := by
  induction body generalizing n with
  | nil => rfl
  | cons b rest ih => simp [parseBlocksGo, ih]

theorem lwsl_none (lvl : Int) :
    ∀ (acc : List MarkdownSection), lastWithSmallerLevel acc lvl = none →
      ∀ (j : Nat) (sj : MarkdownSection), acc[j]? = some sj → ¬ sj.level < lvl := by
  intro acc
  induction acc with
  | nil => intro _ j sj hj; simp at hj
  | cons s rest ih =>
    intro h j sj hj
    cases hr : lastWithSmallerLevel rest lvl with
    | some q =>
      simp only [lastWithSmallerLevel, hr] at h
      exact Option.noConfusion h
    | none =>
      simp only [lastWithSmallerLevel, hr] at h
      by_cases hs : s.level < lvl
      · rw [if_pos hs] at h; cases h
      · cases j with
        | zero =>
          rw [List.getElem?_cons_zero] at hj
          cases hj
          exact hs
        | succ j =>
          rw [List.getElem?_cons_succ] at hj
          exact ih hr j sj hj

theorem lwsl_some (lvl : Int) :
    ∀ (acc : List MarkdownSection) (p : MarkdownSection),
      lastWithSmallerLevel acc lvl = some p →
      ∃ j, acc[j]? = some p ∧ p.level < lvl ∧
        ∀ (k : Nat) (sk : MarkdownSection), j < k → acc[k]? = some sk →
          ¬ sk.level < lvl := by
  intro acc
  induction acc with
  | nil => intro p h; simp [lastWithSmallerLevel] at h
  | cons s rest ih =>
    intro p h
    cases hr : lastWithSmallerLevel rest lvl with
    | some q =>
      simp only [lastWithSmallerLevel, hr, Option.some.injEq] at h
      obtain ⟨j, hget, hlt, hafter⟩ := ih q hr
      refine ⟨j + 1, ?_, h ▸ hlt, ?_⟩
      · rw [List.getElem?_cons_succ]; exact h ▸ hget
      · intro k sk hjk hk
        cases k with
        | zero => omega
        | succ k =>
          rw [List.getElem?_cons_succ] at hk
          exact hafter k sk (Nat.lt_of_succ_lt_succ hjk) hk
    | none =>
      simp only [lastWithSmallerLevel, hr] at h
      by_cases hs : s.level < lvl
      · rw [if_pos hs, Option.some.injEq] at h
        refine ⟨0, ?_, h ▸ hs, ?_⟩
        · rw [List.getElem?_cons_zero]; exact congrArg some h
        · intro k sk hjk hk
          cases k with
          | zero => omega
          | succ k =>
            rw [List.getElem?_cons_succ] at hk
            exact lwsl_none lvl rest hr k sk hk
      · rw [if_neg hs] at h; cases h

theorem hierarchy_append (acc : List MarkdownSection) (sec : MarkdownSection)
    (hacc : ∀ (i : Nat) (si : MarkdownSection), acc[i]? = some si → HierarchyAt acc i si)
    (hpar : sec.parent_id =
      (match lastWithSmallerLevel acc sec.level with | some p => p.id | none => ""))
    (hpath : sec.section_path =
      (match lastWithSmallerLevel acc sec.level with
       | some p => p.section_path ++ "/" ++ sec.id
       | none => sec.id)) :
    ∀ (i : Nat) (si : MarkdownSection), (acc ++ [sec])[i]? = some si →
      HierarchyAt (acc ++ [sec]) i si := by
  intro i si hget
  by_cases hia : i < acc.length
  · rw [List.getElem?_append_left hia] at hget
    obtain ⟨h1, h2⟩ := hacc i si hget
    constructor
    · intro hne
      obtain ⟨j, sj, hji, hj, hid, hlv, hbet, hp⟩ := h1 hne
      have hjl : j < acc.length := Nat.lt_trans hji hia
      refine ⟨j, sj, hji, ?_, hid, hlv, ?_, hp⟩
      · rw [List.getElem?_append_left hjl]; exact hj
      · intro k sk hjk hki hk
        have hkl : k < acc.length := Nat.lt_trans hki hia
        rw [List.getElem?_append_left hkl] at hk
        exact hbet k sk hjk hki hk
    · intro hall
      apply h2
      intro j sj hji hj
      have hjl : j < acc.length := Nat.lt_trans hji hia
      exact hall j sj hji (by rw [List.getElem?_append_left hjl]; exact hj)
  · have hil : i < (acc ++ [sec]).length := by
      by_contra hc
      rw [List.getElem?_len_le (Nat.le_of_not_lt hc)] at hget
      exact Option.noConfusion hget
    have hieq : i = acc.length := by
      simp only [List.length_append, List.length_cons, List.length_nil] at hil
      omega
    have hsec : si = sec := by
      subst hieq
      rw [List.getElem?_append_right (Nat.le_refl _), Nat.sub_self] at hget
      rw [List.getElem?_cons_zero] at hget
      exact (Option.some.injEq _ _ ▸ hget).symm
    subst hsec
    constructor
    · intro hne
      cases hp : lastWithSmallerLevel acc si.level with
      | none =>
        rw [hp] at hpar
        exact absurd hpar hne
      | some p =>
        rw [hp] at hpar hpath
        obtain ⟨j, hj, hlv, hafter⟩ := lwsl_some si.level acc p hp
        have hjl : j < acc.length := by
          rcases List.getElem?_eq_some_iff.mp hj with ⟨hw, _⟩
          exact hw
        refine ⟨j, p, hieq ▸ hjl, ?_, hpar.symm, hlv, ?_, hpath⟩
        · rw [List.getElem?_append_left hjl]; exact hj
        · intro k sk hjk hki hk
          have hkl : k < acc.length := hieq ▸ hki
          rw [List.getElem?_append_left hkl] at hk
          exact hafter k sk hjk hk
    · intro hall
      cases hp : lastWithSmallerLevel acc si.level with
      | none =>
        rw [hp] at hpar hpath
        exact ⟨hpar, hpath⟩
      | some p =>
        obtain ⟨j, hj, hlv, _⟩ := lwsl_some si.level acc p hp
        have hjl : j < acc.length := by
          rcases List.getElem?_eq_some_iff.mp hj with ⟨hw, _⟩
          exact hw
        have := hall j p (hieq ▸ hjl) (by rw [List.getElem?_append_left hjl]; exact hj)
        exact absurd hlv this

theorem esGo_inv (body : List Block) (minL maxL : Int) (inc : Bool) (mode : String)
    (eff : Nat) :
    ∀ (hs : List HeadInfo) (acc : List MarkdownSection) (counts : List (String × Nat)),
      (∀ (i : Nat) (si : MarkdownSection), acc[i]? = some si → HierarchyAt acc i si) →
      ∀ (i : Nat) (si : MarkdownSection),
        (esGo body minL maxL inc mode eff hs acc counts)[i]? = some si →
        HierarchyAt (esGo body minL maxL inc mode eff hs acc counts) i si := by
  intro hs
  induction hs with
  | nil => intro acc counts hacc; simpa [esGo] using hacc
  | cons h rest ih =>
    intro acc counts hacc
    rw [esGo]
    split
    · exact ih acc counts hacc
    · exact ih _ _ (hierarchy_append acc _ hacc rfl rfl)

theorem parseBlocksGo_map_order (body : List Block) :
    ∀ n : Int, (parseBlocksGo body n).map (·.block_order) =
      (List.range body.length).map (fun (k : Nat) => n + (k : Int)) := by
  induction body with
  | nil => intro n; rfl
  | cons b rest ih =>
    intro n
    simp only [parseBlocksGo, List.map_cons, convertBlock_order, List.length_cons,
      List.range_succ_eq_map, List.map_map]
    rw [ih (n + 1)]
    congr 1
    · simp
    · apply List.map_congr_left
      intro k _
      simp only [Function.comp]
      push_cast
      ring

/-! ### Claim theorems -/

/-- Claim C1, counterexample: decomposing the two-item bullet list does not
produce the claimed wire encoding without a space after the comma; the list
case of ParseBlocks joins items with a comma followed by a space. -/
theorem c1_list_wire_counterexample :
    (ParseBlocks "" bodyC1).map (·.content) = ["[\"a\", \"b\"]"] ∧
    ("[\"a\", \"b\"]" : String) ≠ "[\"a\",\"b\"]" :=
  ⟨by rfl, by decide⟩

/-- Claim C1 as amended: decomposing the two-item bullet list yields one
list element with content a bracketed quoted array whose items are
separated by a comma and a space, ordered attribute false, and rendering
that element back through the block renderer yields exactly the two bullet
lines followed by a blank line. -/
theorem c1_list_round_trip_amended :
    (ParseBlocks "" bodyC1).map
      (fun b => (b.block_type, b.content, GetAttribute b.attributes "ordered")) =
      [("list", "[\"a\", \"b\"]", "false")] ∧
    (match (ParseBlocks "" bodyC1).head? with
     | some b => RenderBlockElementToMarkdown b.block_type b.content b.level b.encoding
         b.attributes
     | none => "") = "- a\n- b\n\n" :=
  ⟨by rfl, by rfl⟩

/-- Claim C2, counterexample: three consecutive headings titled Intro do not
receive the ids intro, intro-1, intro-2; the dedup suffix is applied both by
GenerateSectionId and again by the caller, so the third occurrence gets
intro-1-1. -/
theorem c2_dedup_suffix_counterexample :
    (ExtractSections bodyC2 1 6 false "minimal" 0).map (·.id) ≠
      ["intro", "intro-1", "intro-2"] := by
  decide

/-- Claim C2 as amended: the first occurrence of a slug base keeps the bare
base, the second receives base-1, and every further occurrence receives
base-1-(n-2) for the n-th occurrence, because the caller suffixes the
already suffixed id returned by GenerateSectionId. -/
theorem c2_dedup_suffix_amended :
    (ExtractSections bodyC2 1 6 false "minimal" 0).map (·.id) =
      ["intro", "intro-1", "intro-1-1"] ∧
    (ExtractSections bodyC2b 1 6 false "minimal" 0).map (·.id) =
      ["intro", "intro-1", "intro-1-1", "intro-1-2"] :=
  ⟨by rfl, by rfl⟩

/-- Claim C3: the minimal stop boundary is the very next heading, the full
and smart stop boundary is the next heading of smaller or equal level, and
on the concrete boundary document section A captures only text1 in minimal
mode but text1 plus the rendered subsection B (heading line and text2) in
full and smart mode. -/
theorem c3_content_mode_boundary :
    (∀ (lvl : Int) (hs : List HeadInfo), findStop "minimal" lvl hs = hs.head?) ∧
    (∀ (lvl : Int) (hs : List HeadInfo),
      findStop "full" lvl hs = hs.find? (fun h => decide (h.level ≤ lvl)) ∧
      findStop "smart" lvl hs = hs.find? (fun h => decide (h.level ≤ lvl))) ∧
    (ExtractSections bodyC3 1 6 true "minimal" 0).map (fun s => (s.id, s.content)) =
      [("a", "text1\n"), ("b", "text2\n"), ("c", "text3\n")] ∧
    (ExtractSections bodyC3 1 6 true "full" 0).map (fun s => (s.id, s.content)) =
      [("a", "text1\n## B\ntext2\n"), ("b", "text2\n"), ("c", "text3\n")] ∧
    (ExtractSections bodyC3 1 6 true "smart" 0).map (fun s => (s.id, s.content)) =
      [("a", "text1\n## B\ntext2\n"), ("b", "text2\n"), ("c", "text3\n")] :=
  ⟨findStop_minimal,
   fun lvl hs => ⟨findStop_le "full" (by decide) lvl hs,
     findStop_le "smart" (by decide) lvl hs⟩,
   by rfl, by rfl, by rfl⟩

/-- Claim C4, counterexample: when immediate content is non-empty it is
emitted in full, so the emitted smart content can exceed the maximum length
by far more than one line of overrun: with maximum length ten, section A
emits seventy-seven characters although its longest line has twenty. -/
theorem c4_smart_truncation_counterexample :
    ((ExtractSections bodyC4 1 6 true "smart" 10).head?).map (·.content) =
      some "aaaaaaaaaaaaaaaaaaaa\nbbbbbbbbbbbbbbbbbbbb\ncccccccccccccccccccc\n\n... (see #b)\n" ∧
    10 + maxLineLen "aaaaaaaaaaaaaaaaaaaa\nbbbbbbbbbbbbbbbbbbbb\ncccccccccccccccccccc\n\n... (see #b)\n" + 1 <
      ("aaaaaaaaaaaaaaaaaaaa\nbbbbbbbbbbbbbbbbbbbb\ncccccccccccccccccccc\n\n... (see #b)\n" : String).length :=
  ⟨by rfl, by decide⟩

/-- Claim C4 as amended: the truncation path takes at most the maximum
length before the reference lines are appended (shown in general for the
truncation helper and on a concrete truncated section), but when immediate
content is non-empty it is emitted unbounded, so the result may exceed the
maximum length by arbitrarily more than one line of overrun. -/
theorem c4_smart_truncation_amended :
    (∀ (s : String) (n : Nat), (truncatePrefix s n).length ≤ n) ∧
    ((ExtractSections bodyC4b 1 6 true "smart" 10).head?).map (·.content) =
      some "## B\nccccc\n... (see #b)\n" ∧
    ((ExtractSections bodyC4 1 6 true "smart" 10).head?).map (·.content) =
      some "aaaaaaaaaaaaaaaaaaaa\nbbbbbbbbbbbbbbbbbbbb\ncccccccccccccccccccc\n\n... (see #b)\n" :=
  ⟨truncatePrefix_length_le, by rfl, by rfl⟩

/-- Claim C5: evaluation of ParseBlocks at the failing input of two headings
titled Intro shows that both receive the attribute id intro, because the
heading case creates a fresh empty dedup map for every heading instead of
sharing one across the pass. -/
theorem c5_duplicate_heading_ids :
    (ParseBlocks "" bodyC5).map (fun b => GetAttribute b.attributes "id") =
      ["intro", "intro"] := by
  rfl

/-- Claim C6, counterexample: a malformed list content that passes the cheap
shape precheck (longer than two characters and starting with a bracket)
decodes to the empty collection but renders as a single newline, not as the
raw content emitted as a paragraph. -/
theorem c6_malformed_fallback_counterexample :
    ParseJsonListItems "[\"a" = [] ∧
    RenderBlockElementToMarkdown "list" "[\"a" (-1) "json" [] = "\n" ∧
    ("\n" : String) ≠ "[\"a" ++ "\n\n" :=
  ⟨by rfl, by rfl, by decide⟩

/-- Claim C6 as amended: the list decoder is total and yields an empty
collection on malformed input, and the renderer emits the raw content as a
paragraph exactly when the shape precheck fails (non-json encoding, length
at most two, or first character not a bracket); malformed content passing
the precheck decodes to no items and renders as a bare newline. -/
theorem c6_malformed_fallback_amended :
    (∀ (content : String) (lvl : Int) (enc : String) (attrs : List (String × String)),
      (enc ≠ "json" ∨ ¬ (2 < content.length ∧ content.data.head? = some '[')) →
      RenderBlockElementToMarkdown "list" content lvl enc attrs = content ++ "\n\n") ∧
    ParseJsonListItems "[\"a" = [] ∧
    RenderBlockElementToMarkdown "list" "[\"a" (-1) "json" [] = "\n" := by
  refine ⟨?_, by rfl, by rfl⟩
  intro content lvl enc attrs h
  have hb : (enc = "json" && content.length > 2 && content.data.head? = some '[') = false := by
    rcases h with h | h
    · simp [h]
    · by_cases h2 : 2 < content.length
      · have h3 : content.data.head? ≠ some '[' := fun hh => h ⟨h2, hh⟩
        simp [h3]
      · simp [h2]
  simp [RenderBlockElementToMarkdown, hb]

/-- Claim C6 witness: the amended fallback applied at a concrete input that
fails the precheck. -/
theorem c6_malformed_fallback_amended_witness :
    RenderBlockElementToMarkdown "list" "xyz" (-1) "json" [] = "xyz" ++ "\n\n" :=
  c6_malformed_fallback_amended.1 "xyz" (-1) "json" [] (Or.inr (by decide))

/-- Claim C7, counterexample: a heading record with raw level seven and no
override attribute renders with a single hash, not clamped to six. -/
theorem c7_heading_level_counterexample :
    RenderBlockElementToMarkdown "heading" "T" 7 "text" [] = "# T\n\n" ∧
    ("# T\n\n" : String) ≠ "###### T\n\n" :=
  ⟨by rfl, by decide⟩

/-- Claim C7 as amended: the heading renders with h hash characters, a
space, the content and a blank line, where h is the heading_level attribute
clamped to one through six when present and parsing (falling back to one on
a failed parse), and otherwise the raw level only when it already lies in
one through six, any out-of-range raw level falling back to one rather than
being clamped. -/
theorem c7_heading_level_amended :
    ∀ (content : String) (level : Int) (enc : String) (attrs : List (String × String)),
      (GetAttribute attrs "heading_level" = "" → 1 ≤ level → level ≤ 6 →
        RenderBlockElementToMarkdown "heading" content level enc attrs =
          hashes level.toNat ++ " " ++ content ++ "\n\n") ∧
      (GetAttribute attrs "heading_level" = "" → (level < 1 ∨ 6 < level) →
        RenderBlockElementToMarkdown "heading" content level enc attrs =
          hashes 1 ++ " " ++ content ++ "\n\n") ∧
      (∀ k : Int, GetAttribute attrs "heading_level" ≠ "" →
        stoiOpt (GetAttribute attrs "heading_level") = some k →
        RenderBlockElementToMarkdown "heading" content level enc attrs =
          hashes (clampLevel k).toNat ++ " " ++ content ++ "\n\n") ∧
      (GetAttribute attrs "heading_level" ≠ "" →
        stoiOpt (GetAttribute attrs "heading_level") = none →
        RenderBlockElementToMarkdown "heading" content level enc attrs =
          hashes 1 ++ " " ++ content ++ "\n\n") := by
  intro content level enc attrs
  refine ⟨?_, ?_, ?_, ?_⟩
  · intro hattr h1 h6
    have hcond : (level > 0 && level ≤ 6) = true := by
      simp only [Bool.and_eq_true, decide_eq_true_eq]
      omega
    have hres : resolveHeadingLevel level attrs = level := by
      simp only [resolveHeadingLevel, hattr, clampLevel]
      simp only [hcond]
      simp only [ne_eq, not_true_eq_false, if_false, if_true]
      rw [if_neg (by omega), if_neg (by omega)]
    simp [RenderBlockElementToMarkdown, hres]
  · intro hattr hout
    have hcond : ¬ ((level > 0 && level ≤ 6) = true) := by
      simp only [Bool.and_eq_true, decide_eq_true_eq]
      omega
    have hres : resolveHeadingLevel level attrs = 1 := by
      simp only [resolveHeadingLevel, hattr]
      simp only [ne_eq, not_true_eq_false, if_false]
      rw [if_neg hcond]
      simp [clampLevel]
    simp [RenderBlockElementToMarkdown, hres]
  · intro k hne hstoi
    have hres : resolveHeadingLevel level attrs = clampLevel k := by
      simp only [resolveHeadingLevel]
      rw [if_pos hne, hstoi]
    simp [RenderBlockElementToMarkdown, hres]
  · intro hne hstoi
    have hres : resolveHeadingLevel level attrs = 1 := by
      simp only [resolveHeadingLevel]
      rw [if_pos hne, hstoi]
      simp [clampLevel]
    simp [RenderBlockElementToMarkdown, hres]

/-- Claim C7 witness: the amended level rule applied at concrete inputs, an
in-range raw level and an out-of-range attribute override. -/
theorem c7_heading_level_amended_witness :
    RenderBlockElementToMarkdown "heading" "T" 3 "text" [] =
      hashes (3 : Int).toNat ++ " " ++ "T" ++ "\n\n" ∧
    RenderBlockElementToMarkdown "heading" "T" 2 "text" [("heading_level", "9")] =
      hashes (clampLevel 9).toNat ++ " " ++ "T" ++ "\n\n" :=
  ⟨(c7_heading_level_amended "T" 3 "text" []).1 rfl (by decide) (by decide),
   (c7_heading_level_amended "T" 2 "text" [("heading_level", "9")]).2.2.1 9
     (by decide) (by decide)⟩

/-- Claim C8, counterexample: with two direct children both titled X, the
truncation pass computes the reference id x for both (the dedup map is not
consumed), yet the second child later receives the id x-1, so the forward
reference of the second child does not match its eventual id. -/
theorem c8_forward_ref_counterexample :
    ((ExtractSections bodyC8 1 6 true "smart" 10).head?).map (·.content) =
      some "cccccccccccccccccccc\n\n... (see #x)\n\n... (see #x)\n" ∧
    (ExtractSections bodyC8 1 6 true "smart" 10).map (·.id) = ["a", "x", "x-1"] ∧
    subsectionRefs 1 [("a", 1)] [⟨2, 2, "X", 5, 5⟩, ⟨4, 2, "X", 9, 9⟩] =
      "\n... (see #x)\n\n... (see #x)\n" ∧
    GenerateSectionId "X" [("a", 1)] ≠ "x-1" :=
  ⟨by rfl, by rfl, by rfl, by decide⟩

/-- Claim C8 as amended: a forward-computed child id equals the id the child
later receives exactly when the dedup count of the slug base of the child is
unchanged between reference time and processing time and the generated id
itself is still unseen at processing time; duplicate titles among the
referenced children violate this. -/
theorem c8_forward_ref_amended :
    ∀ (t : String) (mref mproc : List (String × Nat)),
      getCount mproc (slugify t) = getCount mref (slugify t) →
      getCount mproc (GenerateSectionId t mref) = 0 →
      (assignSectionId t mproc).1 = GenerateSectionId t mref := by
  intro t mref mproc hslug hfresh
  have hgen : GenerateSectionId t mproc = GenerateSectionId t mref := by
    unfold GenerateSectionId
    simp only []
    rw [hslug]
  unfold assignSectionId
  simp only [hgen]
  have hone : getCount (bumpCount mproc (GenerateSectionId t mref))
      (GenerateSectionId t mref) = 1 := by
    rw [getCount_bump, hfresh]
  simp [hone]

/-- Claim C8 witness: the amended consistency rule at the concrete state of
the first child reference of the counterexample document. -/
theorem c8_forward_ref_amended_witness :
    (assignSectionId "X" [("a", 1)]).1 = GenerateSectionId "X" [("a", 1)] :=
  c8_forward_ref_amended "X" [("a", 1)] [("a", 1)] rfl (by decide)

/-- Claim C9: every section emitted by ExtractSections satisfies the
hierarchy property; a non-empty parent id names the nearest earlier emitted
section of strictly smaller level and the path extends the parent path,
while a section with no smaller-level predecessor is a root with empty
parent id and its own id as path. -/
theorem c9_hierarchy_invariant :
    ∀ (body : List Block) (minL maxL : Int) (inc : Bool) (mode : String) (mlen : Nat)
      (i : Nat) (si : MarkdownSection),
      (ExtractSections body minL maxL inc mode mlen)[i]? = some si →
      HierarchyAt (ExtractSections body minL maxL inc mode mlen) i si := by
  intro body minL maxL inc mode mlen i si hget
  have h0 : ∀ (i : Nat) (si : MarkdownSection),
      ([] : List MarkdownSection)[i]? = some si → HierarchyAt [] i si := by
    intro i si h
    simp at h
  exact esGo_inv body minL maxL inc mode (if mlen > 0 then mlen else 2000)
    (collectHeadings body) [] [] h0 i si hget

/-- Claim C9 witness: the hierarchy property at the concrete subsection B of
the boundary document, whose parent is section A. -/
theorem c9_hierarchy_invariant_witness :
    HierarchyAt (ExtractSections bodyC3 1 6 false "minimal" 0) 1
      { id := "b", section_path := "a/b", level := 2, title := "B", content := "",
        parent_id := "a", start_line := 5, end_line := 5 } :=
  c9_hierarchy_invariant bodyC3 1 6 false "minimal" 0 1 _ (by rfl)

/-- Claim C10: decomposition emits one record per top-level node, one more
when frontmatter is present, with block orders forming exactly the strictly
increasing sequence from one, and a present frontmatter record is emitted
first with order one. -/
theorem c10_element_order :
    ∀ (fm : String) (body : List Block),
      (ParseBlocks fm body).length = body.length + (if fm = "" then 0 else 1) ∧
      (ParseBlocks fm body).map (·.block_order) =
        (List.range (ParseBlocks fm body).length).map (fun (k : Nat) => (k : Int) + 1) ∧
      (fm ≠ "" →
        ((ParseBlocks fm body).head?).map (·.block_type) = some "frontmatter" ∧
        ((ParseBlocks fm body).head?).map (·.block_order) = some 1) := by
  intro fm body
  by_cases hfm : fm = ""
  · refine ⟨?_, ?_, fun hne => absurd hfm hne⟩
    · simp [ParseBlocks, hfm, parseBlocksGo_length]
    · simp only [ParseBlocks, hfm, if_pos]
      rw [parseBlocksGo_map_order body 1, parseBlocksGo_length]
      apply List.map_congr_left
      intro k _
      ring
  · refine ⟨?_, ?_, fun _ => ⟨by simp [ParseBlocks, hfm], by simp [ParseBlocks, hfm]⟩⟩
    · simp [ParseBlocks, hfm, parseBlocksGo_length]
    · unfold ParseBlocks
      rw [if_neg hfm]
      simp only [List.map_cons, List.length_cons, parseBlocksGo_length]
      rw [parseBlocksGo_map_order body 2, List.range_succ_eq_map, List.map_cons,
        List.map_map]
      congr 1
      apply List.map_congr_left
      intro k _
      simp only [Function.comp]
      push_cast
      ring

/-- Claim C10 witness: the order property at a concrete document with
frontmatter and one paragraph. -/
theorem c10_element_order_witness :
    (ParseBlocks "title: x" [Block.para "p"]).length = 2 ∧
    ((ParseBlocks "title: x" [Block.para "p"]).head?).map (·.block_type) =
      some "frontmatter" ∧
    ((ParseBlocks "title: x" [Block.para "p"]).head?).map (·.block_order) = some 1 :=
  ⟨(c10_element_order "title: x" [Block.para "p"]).1,
   ((c10_element_order "title: x" [Block.para "p"]).2.2 (by decide)).1,
   ((c10_element_order "title: x" [Block.para "p"]).2.2 (by decide)).2⟩

end MD
